import Mathlib

set_option maxRecDepth 10000

/-!
Verification of the Hearts game simulator: card model, rules engine
(`trickWinner`, `validPlays`, `cardPoints`, `trickPoints`), the game state
machine (`playCard`, `playRound`, `playGame`) and the history interpreter
(`interpretHistory`), embedded shallowly from the TypeScript sources.
-/

namespace Hearts

/-- Modelled from the spec: the `suits` table lives in the player/index module
that is not part of the sources; the spec fixes the suit set as
clubs, diamonds, spades, hearts. The concrete numeric codes are irrelevant to
every property proved below (only distinctness and equality tests matter). -/
def suits_clubs : Nat := 0

/-- Modelled from the spec: numeric code of diamonds. -/
def suits_diamonds : Nat := 1

/-- Modelled from the spec: numeric code of spades. -/
def suits_spades : Nat := 2

/-- Modelled from the spec: numeric code of hearts. -/
def suits_hearts : Nat := 3

/-- A playing card: a suit code and a rank in `[2, 14]`. -/
structure Card where
  suit : Nat
  rank : Nat
deriving DecidableEq, Repr

/-- The current trick: the suit established by the first card (if any) and the
cards played so far, in play order. -/
structure Trick where
  suit : Option Nat
  cards : List Card
deriving DecidableEq, Repr

/-- `card.suit === suit || suit === null` from `trickWinner`. -/
def matchesSuit (suit : Option Nat) (c : Card) : Bool :=
  match suit with
  | none => true
  | some s => c.suit == s

/-- `winner === null || card.rank > winner.rank` from `trickWinner`. -/
def beatsWinner (winner : Option Card) (c : Card) : Bool :=
  match winner with
  | none => true
  | some w => decide (w.rank < c.rank)

/-- `trickWinner` from simulator.ts: the reduce over the trick's cards keeping
the highest-ranked card that matches the trick suit (any card when the suit
is `null`). -/
def trickWinner (t : Trick) : Option Card :=
  t.cards.foldl
    (fun winner c =>
      if matchesSuit t.suit c && beatsWinner winner c then some c else winner)
    none

/-- `cardPoints` from simulator.ts: hearts are worth 1, the queen of spades 13
unless simplified, everything else 0. -/
def cardPoints (c : Card) (simplified : Bool) : Nat :=
  if c.suit == suits_hearts then 1
  else if !simplified && c.rank == 12 && c.suit == suits_spades then 13
  else 0

/-- `trickPoints` from simulator.ts: the reduce summing `cardPoints` over the
trick's cards. -/
def trickPoints (t : Trick) (simplified : Bool) : Nat :=
  t.cards.foldl (fun total c => total + cardPoints c simplified) 0

/-- `validPlays` from simulator.ts. The TypeScript function destructures
`{trick: {suit}, simplified, heartsBroken}` from the state; we pass those
three fields directly. -/
def validPlays (trickSuit : Option Nat) (simplified heartsBroken : Bool)
    (hand : List Card) : List Card :=
  match trickSuit with
  | some s =>
    let hasSuit := hand.foldl (fun acc c => acc || c.suit == s) false
    if hasSuit then hand.filter (fun c => c.suit == s) else hand
  | none =>
    if simplified || heartsBroken then hand
    else
      let plays := hand.filter (fun c => cardPoints c simplified == 0)
      if plays.length == 0 then hand else plays

/-! ## History interpreter (from the learning module) -/

/-- An actor as read by the history interpreter: the interpreter only reads the
actor's `score` field and round-trips the rest untouched, so the remainder of
the player object is an abstract payload `A`. -/
structure ActorRef (A : Type) where
  score : ℚ
  info : A
deriving DecidableEq, Repr

/-- `FeedBack` from the learning module: one supervised-feedback record per
action. -/
structure FeedBack (F S A : Type) where
  actual : ℚ
  expected : ℚ
  reward : ℚ
  trace : F
  state : S
  actor : ActorRef A
  action : Card
deriving DecidableEq, Repr

/-- A `History` entry, modelled from the spec (the `History` type lives in the
player/index module that is not under src/): either a terminal entry
`{terminal: true, reward, actor}` or a non-terminal entry
`{state, actor, action, quality, reward, trace}`. The state snapshot is an
abstract payload `S`: the interpreter never inspects it. -/
inductive HistoryEntry (F S A : Type) where
  | terminal (reward : ℚ) (actor : ActorRef A)
  | play (state : S) (actor : ActorRef A) (action : Card) (quality : ℚ)
      (reward : ℚ) (trace : F)
deriving DecidableEq, Repr

/-- The result record of `interpretHistory`. -/
structure InterpretResult (F S A : Type) where
  reward : ℚ
  feedBack : List (FeedBack F S A)
  score : ℚ
deriving DecidableEq, Repr

variable {F S A : Type}

/-- `interpretHistory` from the learning module: recursion on the history; a
terminal head seeds the running return, a non-terminal head pushes one
feedback record (with `actual` the return accumulated so far) and then adds
its own reward. `none` models the thrown error on an empty history. -/
def interpretHistory : List (HistoryEntry F S A) → Option (InterpretResult F S A)
  | [] => none
  | .terminal reward actor :: _ => some ⟨reward, [], actor.score⟩
  | .play st actor action quality reward trace :: tail =>
    match interpretHistory tail with
    | none => none
    | some rest =>
      some ⟨rest.reward + reward,
            rest.feedBack ++ [⟨rest.reward, quality, reward, trace, st, actor, action⟩],
            rest.score⟩

/-! ## Game state machine -/

/-- `ActionSummary`: a candidate move returned by a policy. -/
structure ActionSummary (F : Type) where
  action : Card
  quality : ℚ
  trace : F
deriving DecidableEq, Repr

/-- Modelled from the spec: one entry of the per-player action recorder
(`recordAction` and the player module are not under src/). The recorded state
snapshot is opaque to the engine and to every property below, so the entry
keeps the action, the policy's quality estimate and the opaque trace. -/
structure ActionRec (F : Type) where
  action : Card
  quality : ℚ
  trace : F
deriving DecidableEq, Repr

/-- A seated player. Modelled from the spec where the player module is missing
from src/: dealt hand, cumulative penalty score, per-suit out-of-suit flags,
the action recorder and a reward log (spec section 6 allows "equivalent
bookkeeping" for `assignReward`). The policy is kept in the seat-indexed table
passed to the driver: a closure over the state type cannot be a field of the
state itself. -/
structure Player (F : Type) where
  hand : List Card
  score : Nat
  playsOutOfSuit : Nat → Bool
  record : List (ActionRec F)
  rewards : List ℚ

/-- The game `State` from simulator.ts. The four players are indexed by seat;
the TypeScript code identifies players by object reference, which coincides
with seat identity because the four player objects are pairwise distinct
references. -/
structure State (F : Type) where
  players : Fin 4 → Player F
  trick : Trick
  heartsBroken : Bool
  simplified : Bool
  trickLeader : Fin 4

/-- A policy: from the observed state, the acting player and the legal plays to
a list of candidate action summaries. -/
def Policy (F : Type) : Type :=
  State F → Player F → List Card → List (ActionSummary F)

/-- Modelled from the spec: `recordAction` appends one entry to the actor's
append-only recorder. -/
def Player.recordAction (p : Player F) (action : Card) (quality : ℚ) (trace : F) :
    Player F :=
  { p with record := p.record ++ [⟨action, quality, trace⟩] }

/-- Modelled from the spec: `assignReward` attaches the trick-resolution reward
to the player's bookkeeping; we keep an append-only reward log, one entry per
trick resolution. -/
def Player.assignReward (p : Player F) (amount : ℚ) : Player F :=
  { p with rewards := p.rewards ++ [amount] }

/-- `playCard` from simulator.ts: record the action, remove the card from the
actor's hand, mark the out-of-suit flag when discarding off an established
suit, append the card to the trick (establishing its suit if absent), and
update `heartsBroken`. -/
def playCard (state : State F) (actorSeat : Fin 4) (summary : ActionSummary F) :
    State F :=
  let action := summary.action
  { state with
    players := fun seat =>
      let player := state.players seat
      if seat = actorSeat then
        { player with
          record := player.record ++ [⟨action, summary.quality, summary.trace⟩],
          hand := player.hand.filter (fun handCard => handCard != action),
          playsOutOfSuit :=
            match state.trick.suit with
            | some ts =>
              if ts ≠ action.suit then
                fun s => if s = ts then true else player.playsOutOfSuit s
              else player.playsOutOfSuit
            | none => player.playsOutOfSuit }
      else player,
    trick :=
      { suit := match state.trick.suit with
                | none => some action.suit
                | some s => some s,
        cards := state.trick.cards ++ [action] },
    heartsBroken :=
      state.heartsBroken || (cardPoints action state.simplified != 0) }

/-- The reduce in `playRound` that selects the candidate with the strictly
highest quality (ties broken by encounter order: the first maximum wins). -/
def selectPlay (summaries : List (ActionSummary F)) : Option (ActionSummary F) :=
  summaries.foldl
    (fun selection summary =>
      match selection with
      | none => some summary
      | some sel =>
        if sel.quality < summary.quality then some summary else selection)
    none

/-- One iteration of the play loop in `playRound`: the seat
`(trickLeader + i) % 4` computes its valid plays, queries its policy, and
plays the selected candidate. `none` models the thrown error when no play was
determined. -/
def playStep (policies : Fin 4 → Policy F) (state : State F) (i : Fin 4) :
    Option (State F) :=
  match selectPlay (policies (state.trickLeader + i) state
      (state.players (state.trickLeader + i))
      (validPlays state.trick.suit state.simplified state.heartsBroken
        (state.players (state.trickLeader + i)).hand)) with
  | some play => some (playCard state (state.trickLeader + i) play)
  | none => none

/-- The winning-seat computation in `playRound`: the trick winner's index in
the play order, offset by the trick leader, modulo 4. `none` models the two
thrown errors (no trick winner; winning card not found in the trick). -/
def winningSeat (state : State F) : Option (Fin 4) :=
  match trickWinner state.trick with
  | none => none
  | some c =>
    match state.trick.cards.indexOf? c with
    | none => none
    | some cardIndex =>
      some ⟨(cardIndex + state.trickLeader.val) % 4, Nat.mod_lt _ (by omega)⟩

/-- The trick-resolution half of `playRound`: reward every seat, add the
trick's points to the winner's score when nonzero, reset the trick, and hand
leadership to the winning seat. The TypeScript `players[winningSeat] ===
undefined` check can never fire (the index is reduced mod 4), so it has no
counterpart with seats of type `Fin 4`. -/
def resolveTrick (state : State F) : Option (State F) :=
  match winningSeat state with
  | none => none
  | some winSeat =>
    let points := trickPoints state.trick state.simplified
    let rewarded : Fin 4 → Player F := fun seat =>
      let player := state.players seat
      if points ≠ 0 ∧ seat = winSeat then player.assignReward (-(points : ℚ))
      else player.assignReward (if state.simplified then 1/4 else 1/2)
    some { state with
      trickLeader := winSeat,
      trick := { suit := none, cards := [] },
      players := fun seat =>
        let player := rewarded seat
        if points ≠ 0 ∧ seat = winSeat then
          { player with score := player.score + points }
        else player }

/-- `playRound` from simulator.ts: four play steps (seats in leader-relative
order; `trickLeader` is unchanged by `playCard`, so the leader read from the
current state is the round's leader throughout) followed by trick
resolution. -/
def playRound (policies : Fin 4 → Policy F) (state : State F) : Option (State F) := do
  let s1 ← playStep policies state 0
  let s2 ← playStep policies s1 1
  let s3 ← playStep policies s2 2
  let s4 ← playStep policies s3 3
  resolveTrick s4

/-- The suit iteration order of `freshDeck` (`Object.keys(suits)`), modelled
from the spec's listing: clubs, diamonds, spades, hearts. No property below
depends on this order. -/
def suitsList : List Nat := [suits_clubs, suits_diamonds, suits_spades, suits_hearts]

/-- `freshDeck` from simulator.ts: every suit paired with every rank from 2 to
14. -/
def freshDeck : List Card :=
  suitsList.flatMap (fun suit => (List.range 13).map (fun k => ⟨suit, k + 2⟩))

/-- One swap of `shuffleDeck`: `t = deck[i]; deck[i] = deck[j]; deck[j] = t`.
An out-of-range index cannot arise from the random-source contract
(`random() ∈ [0,1)`); the guard merely keeps the function total. -/
def swapAt (l : List Card) (i j : Nat) : List Card :=
  match l[i]?, l[j]? with
  | some a, some b => (l.set i b).set j a
  | _, _ => l

/-- `shuffleDeck` from simulator.ts: one pass of transpositions driven by the
injectable random source, modelled by the sequence of truncated indices
`js i = ⌊random() * deck.length⌋` it produces. -/
def shuffleDeck (deck : List Card) (js : Nat → Nat) : List Card :=
  (List.range deck.length).foldl (fun d i => swapAt d i (js i)) deck

/-- Modelled from the spec: `createPlayer` (player module not under src/)
seats a player with its dealt hand, zero score, no out-of-suit marks and empty
logs. -/
def createPlayer (hand : List Card) : Player F :=
  { hand := hand, score := 0, playsOutOfSuit := fun _ => false,
    record := [], rewards := [] }

/-- The deal in `playGame`: seat `k` receives `deck.slice(13k, 13(k+1))`. -/
def dealtPlayers (deck : List Card) : Fin 4 → Player F :=
  fun seat => createPlayer ((deck.drop (13 * seat.val)).take 13)

/-- `playerWithCard` from simulator.ts combined with the subsequent
`players.indexOf`: the first seat whose hand contains the given (suit, rank)
pair. The TypeScript pair — find the player object, then recover its index by
reference — yields exactly the first matching index, because the four player
objects are pairwise distinct references. -/
def playerWithCardSeat (players : Fin 4 → Player F) (suit rank : Nat) :
    Option (Fin 4) :=
  ([0, 1, 2, 3] : List (Fin 4)).find?
    (fun seat =>
      ((players seat).hand.find? (fun c => c.suit == suit && c.rank == rank)).isSome)

/-- The setup phase of `playGame`: shuffle, deal, and seat the holder of the
two of clubs as the first trick leader. `none` models the thrown errors (two
of clubs not dealt / no seat matched). -/
def startState (F : Type) (simplified : Bool) (js : Nat → Nat) : Option (State F) :=
  match playerWithCardSeat (dealtPlayers (F := F) (shuffleDeck freshDeck js))
      suits_clubs 2 with
  | none => none
  | some startingSeat =>
    some { players := dealtPlayers (F := F) (shuffleDeck freshDeck js),
           trick := { suit := none, cards := [] },
           simplified := simplified, heartsBroken := false,
           trickLeader := startingSeat }

/-- `playGame` from simulator.ts: setup followed by 13 rounds. The TypeScript
function finishes by calling `terminate()` on each player; the embedding
returns the final state, whose players carry their recorders and reward
logs. -/
def playGame (policies : Fin 4 → Policy F) (simplified : Bool) (js : Nat → Nat) :
    Option (State F) := do
  let s0 ← startState F simplified js
  (List.range 13).foldlM (fun s _ => playRound policies s) s0

/-! ## Auxiliary definitions for the verification -/

/-- The data of a non-terminal history entry, used to quantify over sealed
histories (non-terminal entries followed by a terminal entry). -/
structure PlayRec (F S A : Type) where
  state : S
  actor : ActorRef A
  action : Card
  quality : ℚ
  reward : ℚ
  trace : F
deriving DecidableEq, Repr

/-- Reassemble a non-terminal history entry from its data. -/
def PlayRec.toEntry (e : PlayRec F S A) : HistoryEntry F S A :=
  .play e.state e.actor e.action e.quality e.reward e.trace

/-- Closed form of the feedback list produced by `interpretHistory`: one
record per non-terminal entry whose `actual` field is the terminal reward
plus the rewards of the entries strictly after it. -/
def fbList (es : List (PlayRec F S A)) (r : ℚ) : List (FeedBack F S A) :=
  match es with
  | [] => []
  | e :: rest =>
    fbList rest r ++
      [⟨r + (rest.map (fun x => x.reward)).sum, e.quality, e.reward,
        e.trace, e.state, e.actor, e.action⟩]

/-- A policy table that only ever chooses among the offered plays: every
candidate it returns pairs one of the offered cards. -/
def ChoosesOffered (policies : Fin 4 → Policy F) : Prop :=
  ∀ (seat : Fin 4) (s : State F) (p : Player F) (plays : List Card)
    (a : ActionSummary F), a ∈ policies seat s p plays → a.action ∈ plays

/-- A policy table that returns at least one candidate whenever it is offered
at least one legal play. -/
def Productive (policies : Fin 4 → Policy F) : Prop :=
  ∀ (seat : Fin 4) (s : State F) (p : Player F) (plays : List Card),
    plays ≠ [] → policies seat s p plays ≠ []

/-- The sum of the four seats' cumulative scores. -/
def scoreSum (s : State F) : Nat :=
  ∑ seat : Fin 4, (s.players seat).score

/-- The total card points still held in the four hands. -/
def handsPoints (s : State F) : Nat :=
  ∑ seat : Fin 4, ((s.players seat).hand.map (fun c => cardPoints c s.simplified)).sum

/-- The card points contained in the whole deck. -/
def totalPoints (simplified : Bool) : Nat :=
  (freshDeck.map (fun c => cardPoints c simplified)).sum

/-- The mid-round invariant after `j` of the four plays of a round: the leader
and mode are fixed, the trick holds `j` cards and its suit is the first
card's, the seats that have already played (in leader-relative order) have one
card less in hand and one entry more on record, and score plus held points
plus trick points is conserved. -/
def MidInv (hl recn j : Nat) (simplified : Bool) (total : Nat) (L : Fin 4)
    (s : State F) : Prop :=
  s.trickLeader = L ∧
  s.simplified = simplified ∧
  s.trick.cards.length = j ∧
  (s.trick.cards = [] → s.trick.suit = none) ∧
  (∀ c0 rest, s.trick.cards = c0 :: rest → s.trick.suit = some c0.suit) ∧
  (∀ m : Fin 4, m.val < j →
    (s.players (L + m)).hand.length + 1 = hl ∧
    (s.players (L + m)).record.length = recn + 1) ∧
  (∀ m : Fin 4, j ≤ m.val →
    (s.players (L + m)).hand.length = hl ∧
    (s.players (L + m)).record.length = recn) ∧
  (∀ seat, (s.players seat).hand.Nodup) ∧
  scoreSum s + (handsPoints s + trickPoints s.trick s.simplified) = total

/-- The success value of `resolveTrick` for a given winning seat: rewards
assigned to every seat, the trick's points added to the winner's score, the
trick reset and leadership handed to the winner. -/
def resolvedState (s : State F) (winSeat : Fin 4) : State F :=
  { s with
    trickLeader := winSeat,
    trick := { suit := none, cards := [] },
    players := fun seat =>
      let player :=
        if trickPoints s.trick s.simplified ≠ 0 ∧ seat = winSeat
        then (s.players seat).assignReward (-(trickPoints s.trick s.simplified : ℚ))
        else (s.players seat).assignReward (if s.simplified then 1/4 else 1/2)
      if trickPoints s.trick s.simplified ≠ 0 ∧ seat = winSeat
      then { player with score := player.score + trickPoints s.trick s.simplified }
      else player }

/-- One legal driver step: the acting seat's policy was queried with exactly
the legal subset computed by `validPlays` on its hand, the selected candidate
came from the policy's answer to that query, its card is one of those legal
plays, and that card is what `playCard` appended to the trick. -/
def LegalStep (policies : Fin 4 → Policy F) (s : State F) (i : Fin 4)
    (a : ActionSummary F) (s' : State F) : Prop :=
  selectPlay (policies (s.trickLeader + i) s (s.players (s.trickLeader + i))
    (validPlays s.trick.suit s.simplified s.heartsBroken
      (s.players (s.trickLeader + i)).hand)) = some a ∧
  a ∈ policies (s.trickLeader + i) s (s.players (s.trickLeader + i))
    (validPlays s.trick.suit s.simplified s.heartsBroken
      (s.players (s.trickLeader + i)).hand) ∧
  a.action ∈ validPlays s.trick.suit s.simplified s.heartsBroken
    (s.players (s.trickLeader + i)).hand ∧
  s' = playCard s (s.trickLeader + i) a ∧
  s'.trick.cards = s.trick.cards ++ [a.action]

/-- A quality-zero policy table used by witnesses: it offers every legal play
back with quality 0. -/
def allZeroPolicy : Fin 4 → Policy Unit :=
  fun _ _ _ plays => plays.map (fun c => ⟨c, 0, ()⟩)

/-- A concrete one-round state used by witnesses: each seat holds a single
club. -/
def roundDemoState : State Unit :=
  { players := fun seat =>
      { hand := [⟨suits_clubs, seat.val + 2⟩], score := 0,
        playsOutOfSuit := fun _ => false, record := [], rewards := [] },
    trick := { suit := none, cards := [] },
    heartsBroken := false, simplified := false, trickLeader := 0 }

/-- A concrete player used by witnesses. -/
def demoPlayer : Player Unit :=
  { hand := [⟨suits_clubs, 2⟩, ⟨suits_hearts, 5⟩], score := 0,
    playsOutOfSuit := fun _ => false, record := [], rewards := [] }

/-- A concrete mid-trick state used by witnesses: clubs led, one club played,
every seat holding the two of clubs and the five of hearts. -/
def demoState : State Unit :=
  { players := fun _ => demoPlayer,
    trick := { suit := some suits_clubs, cards := [⟨suits_clubs, 3⟩] },
    heartsBroken := false, simplified := false, trickLeader := 0 }

/-! ## Rules-engine lemmas -/

/-- The step function of the `trickWinner` fold. -/
def winStep (suit : Option Nat) (winner : Option Card) (c : Card) : Option Card :=
  if matchesSuit suit c && beatsWinner winner c then some c else winner

lemma trickWinner_eq_foldl (t : Trick) :
    trickWinner t = t.cards.foldl (winStep t.suit) none := rfl

lemma winStep_some (suit : Option Nat) (l : List Card) (a : Card) :
    ∃ w, l.foldl (winStep suit) (some a) = some w := by
  induction l generalizing a with
  | nil => exact ⟨a, rfl⟩
  | cons c t ih =>
    simp only [List.foldl_cons, winStep]
    by_cases h : matchesSuit suit c && beatsWinner (some a) c
    · simpa [h] using ih c
    · simpa [h] using ih a

lemma winStep_none_of_no_match (s : Nat) (l : List Card)
    (h : ∀ c ∈ l, c.suit ≠ s) :
    l.foldl (winStep (some s)) none = none := by
  induction l with
  | nil => rfl
  | cons c t ih =>
    have hc : (c.suit == s) = false := by
      simpa using h c (List.mem_cons_self c t)
    simp only [List.foldl_cons, winStep, matchesSuit, hc, Bool.false_and,
      Bool.false_eq_true, if_neg, ite_false]
    exact ih fun x hx => h x (List.mem_cons_of_mem c hx)

lemma winStep_max_of_suit (s : Nat) (l : List Card) (a : Card) (ha : a.suit = s) :
    ∃ w, l.foldl (winStep (some s)) (some a) = some w ∧
      (w = a ∨ (w ∈ l ∧ w.suit = s)) ∧ a.rank ≤ w.rank ∧
      ∀ c ∈ l, c.suit = s → c.rank ≤ w.rank := by
  induction l generalizing a with
  | nil => exact ⟨a, rfl, Or.inl rfl, le_refl _, by simp⟩
  | cons c t ih =>
    simp only [List.foldl_cons]
    by_cases hcs : matchesSuit (some s) c && beatsWinner (some a) c
    · have hc : c.suit = s := by
        have := (Bool.and_eq_true _ _).mp hcs |>.1
        simpa [matchesSuit] using this
      have hbeat : a.rank < c.rank := by
        have := (Bool.and_eq_true _ _).mp hcs |>.2
        simpa [beatsWinner] using this
      obtain ⟨w, hw, hmem, hle, hmax⟩ := ih c hc
      refine ⟨w, by simpa [winStep, hcs] using hw, ?_, le_of_lt (lt_of_lt_of_le hbeat hle), ?_⟩
      · rcases hmem with h | ⟨h1, h2⟩
        · exact Or.inr ⟨by simp [h], h ▸ hc⟩
        · exact Or.inr ⟨List.mem_cons_of_mem c h1, h2⟩
      · intro x hx hxs
        rcases List.mem_cons.mp hx with h | h
        · rw [h]; exact hle
        · exact hmax x h hxs
    · obtain ⟨w, hw, hmem, hle, hmax⟩ := ih a ha
      refine ⟨w, by simpa [winStep, hcs] using hw, ?_, hle, ?_⟩
      · rcases hmem with h | ⟨h1, h2⟩
        · exact Or.inl h
        · exact Or.inr ⟨List.mem_cons_of_mem c h1, h2⟩
      · intro x hx hxs
        rcases List.mem_cons.mp hx with h | h
        · subst h
        -- x = c did not beat a: either off suit (impossible here) or rank ≤ a.rank
          have : ¬ (matchesSuit (some s) x && beatsWinner (some a) x) = true := hcs
          simp only [matchesSuit, beatsWinner, Bool.and_eq_true, decide_eq_true_eq,
            beq_iff_eq] at this
          have hrank : ¬ a.rank < x.rank := fun hlt => this ⟨hxs, hlt⟩
          exact le_trans (Nat.le_of_not_lt hrank) hle
        · exact hmax x h hxs

lemma winStep_exists_of_match (s : Nat) (l : List Card)
    (h : ∃ c ∈ l, c.suit = s) :
    ∃ w, l.foldl (winStep (some s)) none = some w ∧ w ∈ l ∧ w.suit = s ∧
      ∀ c ∈ l, c.suit = s → c.rank ≤ w.rank := by
  induction l with
  | nil => simp at h
  | cons c t ih =>
    by_cases hc : c.suit = s
    · have hstep : winStep (some s) none c = some c := by
        simp [winStep, matchesSuit, beatsWinner, hc]
      obtain ⟨w, hw, hmem, hle, hmax⟩ := winStep_max_of_suit s t c hc
      refine ⟨w, by simpa [List.foldl_cons, hstep] using hw, ?_, ?_, ?_⟩
      · rcases hmem with h | ⟨h1, _⟩
        · simp [h]
        · exact List.mem_cons_of_mem c h1
      · rcases hmem with h | ⟨_, h2⟩
        · exact h ▸ hc
        · exact h2
      · intro x hx hxs
        rcases List.mem_cons.mp hx with h | h
        · exact h ▸ hle
        · exact hmax x h hxs
    · have hstep : winStep (some s) none c = none := by
        simp [winStep, matchesSuit, beatsWinner, hc]
      obtain ⟨x, hx, hxs⟩ := h
      rcases List.mem_cons.mp hx with h | h
      · exact absurd (h ▸ hxs) hc
      · obtain ⟨w, hw, hmem, hws, hmax⟩ := ih ⟨x, h, hxs⟩
        refine ⟨w, by simpa [List.foldl_cons, hstep] using hw,
          List.mem_cons_of_mem c hmem, hws, ?_⟩
        intro y hy hys
        rcases List.mem_cons.mp hy with h | h
        · exact absurd (h ▸ hys) hc
        · exact hmax y h hys

/-- Fold of the boolean "has suit" reduce in `validPlays`. -/
lemma foldl_or_eq_any (p : Card → Bool) (l : List Card) (b : Bool) :
    l.foldl (fun acc c => acc || p c) b = (b || l.any p) := by
  induction l generalizing b with
  | nil => simp
  | cons c t ih => simp [ih, Bool.or_assoc]

/-! ## Claim C1 -/

/-- C1: `validPlays` case analysis. With an established trick suit it returns
exactly the hand's cards of that suit when the hand has any, and the whole
hand otherwise; with no established suit it returns the whole hand when
simplified or hearts are broken, and otherwise the hand's zero-point cards
per `cardPoints`, falling back to the whole hand when no zero-point card
exists. -/
theorem validPlays_correct (trickSuit : Option Nat) (simplified heartsBroken : Bool)
    (hand : List Card) :
    (∀ s, trickSuit = some s →
      ((∃ c ∈ hand, c.suit = s) →
        validPlays trickSuit simplified heartsBroken hand =
          hand.filter (fun c => c.suit == s)) ∧
      ((∀ c ∈ hand, c.suit ≠ s) →
        validPlays trickSuit simplified heartsBroken hand = hand)) ∧
    (trickSuit = none → (simplified = true ∨ heartsBroken = true) →
      validPlays trickSuit simplified heartsBroken hand = hand) ∧
    (trickSuit = none → simplified = false → heartsBroken = false →
      ((∃ c ∈ hand, cardPoints c simplified = 0) →
        validPlays trickSuit simplified heartsBroken hand =
          hand.filter (fun c => cardPoints c simplified == 0)) ∧
      ((∀ c ∈ hand, cardPoints c simplified ≠ 0) →
        validPlays trickSuit simplified heartsBroken hand = hand)) := by
  refine ⟨?_, ?_, ?_⟩
  · rintro s rfl
    constructor
    · rintro ⟨c, hc, hcs⟩
      have hany : hand.any (fun c => c.suit == s) = true :=
        List.any_eq_true.mpr ⟨c, hc, by simpa using hcs⟩
      simp [validPlays, foldl_or_eq_any, hany]
    · intro h
      have hany : hand.any (fun c => c.suit == s) = false := by
        simp only [List.any_eq_false]
        intro c hc
        simpa using h c hc
      simp [validPlays, foldl_or_eq_any, hany]
  · rintro rfl h
    rcases h with h | h <;> simp [validPlays, h]
  · rintro rfl rfl rfl
    constructor
    · rintro ⟨c, hc, hcp⟩
      have : hand.filter (fun c => cardPoints c false == 0) ≠ [] := by
        intro hnil
        have := List.filter_eq_nil_iff.mp hnil c hc
        simp [hcp] at this
      have hlen : (hand.filter (fun c => cardPoints c false == 0)).length ≠ 0 := by
        simpa [List.length_eq_zero] using this
      simp [validPlays, hlen]
    · intro h
      have hnil : hand.filter (fun c => cardPoints c false == 0) = [] := by
        apply List.filter_eq_nil_iff.mpr
        intro c hc
        simpa using h c hc
      simp [validPlays, hnil]

/-- Witness for C1: the four branches at concrete inputs. Suit codes and
ranks written out; `⟨0, 5⟩` is the five of clubs, `⟨3, 2⟩` the two of
hearts. -/
theorem validPlays_correct_witness :
    validPlays (some 0) false false [⟨0, 5⟩, ⟨3, 2⟩] = [⟨0, 5⟩] ∧
    validPlays (some 1) false false [⟨0, 5⟩, ⟨3, 2⟩] = [⟨0, 5⟩, ⟨3, 2⟩] ∧
    validPlays none false true [⟨3, 2⟩] = [⟨3, 2⟩] ∧
    validPlays none false false [⟨0, 5⟩, ⟨3, 2⟩] = [⟨0, 5⟩] ∧
    validPlays none false false [⟨3, 2⟩, ⟨3, 3⟩] = [⟨3, 2⟩, ⟨3, 3⟩] := by
  refine ⟨?_, ?_, ?_, ?_, ?_⟩
  · have h := ((validPlays_correct (some 0) false false [⟨0, 5⟩, ⟨3, 2⟩]).1 0 rfl).1
      ⟨⟨0, 5⟩, by simp, rfl⟩
    simpa using h
  · have h := ((validPlays_correct (some 1) false false [⟨0, 5⟩, ⟨3, 2⟩]).1 1 rfl).2
      (by decide)
    simpa using h
  · exact (validPlays_correct none false true [⟨3, 2⟩]).2.1 rfl (Or.inr rfl)
  · have h := ((validPlays_correct none false false [⟨0, 5⟩, ⟨3, 2⟩]).2.2 rfl rfl rfl).1
      ⟨⟨0, 5⟩, by simp, by decide⟩
    simpa using h
  · exact ((validPlays_correct none false false [⟨3, 2⟩, ⟨3, 3⟩]).2.2 rfl rfl rfl).2
      (by decide)

/-! ## Claim C2 -/

/-- C2: on a trick with an established suit containing at least one card of
that suit, `trickWinner` returns a card of the trick suit with maximal rank
among the trick's cards of that suit; a card of a different suit is never
returned. -/
theorem trickWinner_follows_suit (t : Trick) (s : Nat) (hs : t.suit = some s)
    (hex : ∃ c ∈ t.cards, c.suit = s) :
    ∃ w, trickWinner t = some w ∧ w ∈ t.cards ∧ w.suit = s ∧
      ∀ c ∈ t.cards, c.suit = s → c.rank ≤ w.rank := by
  rw [trickWinner_eq_foldl, hs]
  exact winStep_exists_of_match s t.cards hex

/-- Witness for C2: the spec's concrete scenario `[2♥, 5♥, K♣, A♥]` with trick
suit hearts resolves to the ace of hearts even though the king of clubs has a
higher rank than the two of hearts. -/
theorem trickWinner_follows_suit_witness :
    trickWinner { suit := some suits_hearts,
                  cards := [⟨suits_hearts, 2⟩, ⟨suits_hearts, 5⟩,
                            ⟨suits_clubs, 13⟩, ⟨suits_hearts, 14⟩] } =
      some ⟨suits_hearts, 14⟩ := by
  obtain ⟨w, hw, hmem, hws, hmax⟩ := trickWinner_follows_suit
    { suit := some suits_hearts,
      cards := [⟨suits_hearts, 2⟩, ⟨suits_hearts, 5⟩,
                ⟨suits_clubs, 13⟩, ⟨suits_hearts, 14⟩] }
    suits_hearts rfl ⟨⟨suits_hearts, 14⟩, by decide, rfl⟩
  have hrank : (⟨suits_hearts, 14⟩ : Card).rank ≤ w.rank := hmax _ (by decide) rfl
  have : w = ⟨suits_hearts, 14⟩ := by
    fin_cases hmem <;> first
      | rfl
      | (exfalso; revert hws hrank; decide)
  rw [hw, this]

/-! ## Claim C9 -/

/-- C9 (amended): `trickWinner` returns `none` exactly when the trick is empty
or the trick has an established suit and no played card follows it. -/
theorem trickWinner_none_iff (t : Trick) :
    trickWinner t = none ↔
      t.cards = [] ∨ ∃ s, t.suit = some s ∧ ∀ c ∈ t.cards, c.suit ≠ s := by
  constructor
  · intro h
    by_cases hnil : t.cards = []
    · exact Or.inl hnil
    · right
      match ht : t.suit with
      | none =>
        exfalso
        obtain ⟨c, l, hcl⟩ := List.exists_cons_of_ne_nil hnil
        rw [trickWinner_eq_foldl, ht, hcl] at h
        have hstep : winStep none none c = some c := by
          simp [winStep, matchesSuit, beatsWinner]
        rw [List.foldl_cons, hstep] at h
        obtain ⟨w, hw⟩ := winStep_some none l c
        rw [hw] at h
        exact Option.some_ne_none w h
      | some s =>
        refine ⟨s, rfl, ?_⟩
        by_contra hc
        push_neg at hc
        obtain ⟨c, hmem, hcs⟩ := hc
        obtain ⟨w, hw, _, _, _⟩ := winStep_exists_of_match s t.cards ⟨c, hmem, hcs⟩
        rw [trickWinner_eq_foldl, ht, hw] at h
        exact Option.some_ne_none w h
  · intro h
    rcases h with h | ⟨s, hs, hall⟩
    · simp [trickWinner, h]
    · rw [trickWinner_eq_foldl, hs]
      exact winStep_none_of_no_match s t.cards hall

/-- Counterexample for C9 as stated: a trick whose established suit is clubs
but whose single played card is a heart is nonempty, yet `trickWinner`
returns `none`. -/
theorem trickWinner_nonempty_counterexample :
    trickWinner { suit := some suits_clubs, cards := [⟨suits_hearts, 5⟩] } = none ∧
    ({ suit := some suits_clubs, cards := [⟨suits_hearts, 5⟩] } : Trick).cards ≠ [] := by
  decide

/-! ## Claim C6 -/

/-- C6: the `heartsBroken` flag is one-way. The play-a-card transition sets it
to true exactly when it was already true or the played card carries nonzero
points, and trick resolution passes it through unchanged; hence no transition
resets it from true to false. -/
theorem heartsBroken_one_way (s : State F) :
    (∀ seat summary,
      (playCard s seat summary).heartsBroken =
        (s.heartsBroken || (cardPoints summary.action s.simplified != 0))) ∧
    (∀ s', resolveTrick s = some s' → s'.heartsBroken = s.heartsBroken) := by
  constructor
  · intro seat summary
    rfl
  · intro s' h
    unfold resolveTrick at h
    rcases hw : winningSeat s with _ | w <;> rw [hw] at h
    · exact absurd h (by simp)
    · simp only [Option.some.injEq] at h
      rw [← h]

/-- Witness for C6: a card play on the demo state (a heart, worth a point)
sets `heartsBroken`, and resolving the demo state's trick leaves the flag
unchanged. -/
theorem heartsBroken_one_way_witness :
    ((playCard demoState 0 ⟨⟨suits_hearts, 5⟩, 0, ()⟩).heartsBroken = true) ∧
    (∃ s', resolveTrick demoState = some s' ∧ s'.heartsBroken = demoState.heartsBroken) := by
  constructor
  · rw [(heartsBroken_one_way demoState).1 0 ⟨⟨suits_hearts, 5⟩, 0, ()⟩]
    decide
  · exact ⟨_, rfl, (heartsBroken_one_way demoState).2 _ rfl⟩

/-! ## Claim C7 -/

/-- C7: frame conditions of the play-a-card transition. When the played card
is in the actor's (duplicate-free) hand: the actor's new hand is the old hand
with that card removed; the actor's out-of-suit flag for the established
trick suit is set when the card's suit differs from it, and no set flag is
ever cleared; the card is appended to the trick, whose suit becomes the
card's suit when it had none; and the other three players, every player's
score, the trick leader and the mode pass through unchanged. -/
theorem playCard_frame (s : State F) (seat : Fin 4) (summary : ActionSummary F)
    (hmem : summary.action ∈ (s.players seat).hand)
    (hnodup : (s.players seat).hand.Nodup) :
    (((playCard s seat summary).players seat).hand =
      (s.players seat).hand.erase summary.action) ∧
    (∀ seat2 su, ((s.players seat2).playsOutOfSuit su = true →
      ((playCard s seat summary).players seat2).playsOutOfSuit su = true)) ∧
    (∀ ts, s.trick.suit = some ts → ts ≠ summary.action.suit →
      ((playCard s seat summary).players seat).playsOutOfSuit ts = true) ∧
    ((playCard s seat summary).trick.cards = s.trick.cards ++ [summary.action]) ∧
    ((playCard s seat summary).trick.suit =
      some ((s.trick.suit).getD summary.action.suit)) ∧
    (∀ seat2, seat2 ≠ seat →
      (playCard s seat summary).players seat2 = s.players seat2) ∧
    (∀ seat2, ((playCard s seat summary).players seat2).score =
      (s.players seat2).score) ∧
    ((playCard s seat summary).trickLeader = s.trickLeader) ∧
    ((playCard s seat summary).simplified = s.simplified) := by
  refine ⟨?_, ?_, ?_, ?_, ?_, ?_, ?_, rfl, rfl⟩
  · simp only [playCard, if_pos rfl]
    exact (hnodup.erase_eq_filter summary.action).symm
  · intro seat2 su hsu
    by_cases h2 : seat2 = seat
    · subst h2
      simp only [playCard, if_pos rfl]
      rcases hts : s.trick.suit with _ | ts
      · simpa using hsu
      · by_cases hne : ts ≠ summary.action.suit
        · simp only [if_pos hne]
          by_cases hsu2 : su = ts <;> simp [hsu2, hsu]
        · simpa [hne] using hsu
    · simpa [playCard, h2] using hsu
  · intro ts hts hne
    simp [playCard, hts, hne]
  · rfl
  · rcases hts : s.trick.suit with _ | ts <;> simp [playCard, hts]
  · intro seat2 h2
    simp [playCard, h2]
  · intro seat2
    by_cases h2 : seat2 = seat
    · subst h2
      rcases hts : s.trick.suit with _ | ts <;> simp [playCard, hts]
    · simp [playCard, h2]

/-- Witness for C7: playing the five of hearts from the demo state (clubs
established), checked on the concrete fields. -/
theorem playCard_frame_witness :
    (((playCard demoState 0 ⟨⟨suits_hearts, 5⟩, 0, ()⟩).players 0).hand =
      [⟨suits_clubs, 2⟩]) ∧
    (((playCard demoState 0 ⟨⟨suits_hearts, 5⟩, 0, ()⟩).players 0).playsOutOfSuit
      suits_clubs = true) ∧
    ((playCard demoState 0 ⟨⟨suits_hearts, 5⟩, 0, ()⟩).trick.cards =
      [⟨suits_clubs, 3⟩, ⟨suits_hearts, 5⟩]) ∧
    ((playCard demoState 0 ⟨⟨suits_hearts, 5⟩, 0, ()⟩).trick.suit =
      some suits_clubs) ∧
    (((playCard demoState 0 ⟨⟨suits_hearts, 5⟩, 0, ()⟩).players 2).score = 0) ∧
    ((playCard demoState 0 ⟨⟨suits_hearts, 5⟩, 0, ()⟩).trickLeader = 0) := by
  obtain ⟨h1, _, h3, h4, h5, _, h7, h8, _⟩ :=
    playCard_frame demoState 0 ⟨⟨suits_hearts, 5⟩, 0, ()⟩ (by decide) (by decide)
  refine ⟨?_, ?_, ?_, ?_, ?_, h8⟩
  · rw [h1]; decide
  · exact h3 suits_clubs rfl (by decide)
  · rw [h4]; rfl
  · rw [h5]; rfl
  · rw [h7]; rfl

/-! ## Claim C3 -/

/-- C3: at trick resolution each of the four seats is assigned exactly one
reward: when the trick's points are nonzero the winning seat receives minus
the points and every other seat the flat bonus (0.5 standard, 0.25
simplified); when the points are zero every seat, the winner included,
receives the bonus. -/
theorem resolveTrick_rewards (s : State F) (w : Fin 4)
    (hw : winningSeat s = some w) :
    ∃ s', resolveTrick s = some s' ∧
      ∀ seat, (s'.players seat).rewards =
        (s.players seat).rewards ++
          [if trickPoints s.trick s.simplified ≠ 0 ∧ seat = w then
             -(trickPoints s.trick s.simplified : ℚ)
           else if s.simplified then 1/4 else 1/2] := by
  refine ⟨_, by unfold resolveTrick; rw [hw], ?_⟩
  intro seat
  by_cases h : trickPoints s.trick s.simplified ≠ 0 ∧ seat = w <;>
    simp [h, Player.assignReward]

/-- Witness for C3: resolving the demo state's one-card club trick (zero
points) appends the 0.5 bonus to every seat's reward log. -/
theorem resolveTrick_rewards_witness :
    ∃ s', resolveTrick demoState = some s' ∧
      ∀ seat, (s'.players seat).rewards = [(1 : ℚ)/2] := by
  obtain ⟨s', hs', hr⟩ := resolveTrick_rewards demoState 0 rfl
  refine ⟨s', hs', fun seat => ?_⟩
  rw [hr seat]
  norm_num [demoState, demoPlayer, trickPoints, cardPoints, suits_clubs, suits_hearts,
    suits_spades]

/-! ## Claim C4 -/

lemma interpretHistory_closed (es : List (PlayRec F S A)) (r : ℚ) (a : ActorRef A) :
    interpretHistory (es.map PlayRec.toEntry ++ [.terminal r a]) =
      some ⟨r + (es.map (fun e => e.reward)).sum, fbList es r, a.score⟩ := by
  induction es with
  | nil => simp [interpretHistory, fbList]
  | cons e rest ih =>
    have step :
        interpretHistory ((e :: rest).map PlayRec.toEntry ++
            [HistoryEntry.terminal r a]) =
          match interpretHistory (rest.map PlayRec.toEntry ++
              [HistoryEntry.terminal r a]) with
          | none => none
          | some rr =>
            some ⟨rr.reward + e.reward,
                  rr.feedBack ++
                    [⟨rr.reward, e.quality, e.reward, e.trace, e.state, e.actor,
                      e.action⟩],
                  rr.score⟩ := rfl
    rw [step, ih]
    simp only [fbList, List.map_cons, List.sum_cons, Option.some.injEq,
      InterpretResult.mk.injEq, and_true, true_and]
    ring

lemma fbList_length (es : List (PlayRec F S A)) (r : ℚ) :
    (fbList es r).length = es.length := by
  induction es with
  | nil => rfl
  | cons e rest ih => simp [fbList, ih]

lemma fbList_get (es : List (PlayRec F S A)) (r : ℚ) (i : Nat) (e : PlayRec F S A)
    (h : es[i]? = some e) :
    (fbList es r).reverse[i]? =
      some ⟨r + ((es.drop (i + 1)).map (fun x => x.reward)).sum, e.quality,
        e.reward, e.trace, e.state, e.actor, e.action⟩ := by
  induction es generalizing i with
  | nil => simp at h
  | cons e0 rest ih =>
    rw [fbList, List.reverse_append]
    cases i with
    | zero =>
      simp only [List.getElem?_cons_zero, Option.some.injEq] at h
      subst h
      simp
    | succ j =>
      simp only [List.getElem?_cons_succ] at h
      simpa using ih j h

/-- C4: on a sealed history of non-terminal entries followed by a terminal
entry, `interpretHistory` returns the terminal reward plus the sum of the
non-terminal rewards, and one feedback record per non-terminal entry —
read in chronological order via the reversed feedback list — whose `expected`
field is that entry's quality and whose `actual` field is the sum of the
rewards of all later entries including the terminal reward. On a history of
length one (terminal only) it returns an empty feedback list and the terminal
reward. -/
theorem interpretHistory_correct (es : List (PlayRec F S A)) (r : ℚ)
    (a : ActorRef A) :
    ∃ result, interpretHistory (es.map PlayRec.toEntry ++ [.terminal r a]) =
        some result ∧
      result.reward = r + (es.map (fun e => e.reward)).sum ∧
      result.feedBack.length = es.length ∧
      result.score = a.score ∧
      (es = [] → result.feedBack = [] ∧ result.reward = r) ∧
      ∀ i e, es[i]? = some e →
        ∃ fb, result.feedBack.reverse[i]? = some fb ∧
          fb.expected = e.quality ∧
          fb.actual = r + ((es.drop (i + 1)).map (fun x => x.reward)).sum ∧
          fb.reward = e.reward ∧ fb.trace = e.trace ∧ fb.state = e.state ∧
          fb.actor = e.actor ∧ fb.action = e.action := by
  refine ⟨_, interpretHistory_closed es r a, rfl, fbList_length es r, rfl, ?_, ?_⟩
  · rintro rfl
    simp [fbList]
  · intro i e h
    exact ⟨_, fbList_get es r i e h, rfl, rfl, rfl, rfl, rfl, rfl, rfl⟩

/-- Witness for C4: a two-action history with terminal reward 1 and action
rewards 2 and 3 yields total reward 6, two feedback records, and the
chronologically first record predicts quality 5 against an actual return of
4. -/
theorem interpretHistory_correct_witness :
    ∃ result,
      interpretHistory
        (([⟨(), ⟨0, ()⟩, ⟨0, 2⟩, 5, 2, ()⟩,
           ⟨(), ⟨0, ()⟩, ⟨0, 3⟩, 7, 3, ()⟩] : List (PlayRec Unit Unit Unit)).map
            PlayRec.toEntry ++ [.terminal 1 ⟨9, ()⟩]) = some result ∧
      result.reward = 6 ∧ result.feedBack.length = 2 ∧ result.score = 9 ∧
      ∃ fb, result.feedBack.reverse[0]? = some fb ∧
        fb.expected = 5 ∧ fb.actual = 4 := by
  obtain ⟨result, h1, h2, h3, h4, _, h6⟩ :=
    interpretHistory_correct
      ([⟨(), ⟨0, ()⟩, ⟨0, 2⟩, 5, 2, ()⟩,
        ⟨(), ⟨0, ()⟩, ⟨0, 3⟩, 7, 3, ()⟩] : List (PlayRec Unit Unit Unit)) 1 ⟨9, ()⟩
  obtain ⟨fb, hfb, he, ha, _⟩ := h6 0 _ rfl
  refine ⟨result, h1, ?_, h3, h4, fb, hfb, he, ?_⟩
  · rw [h2]; norm_num
  · rw [ha]; norm_num

/-! ## Claim C10 -/

lemma set_cons_perm (t : List Card) (k : Nat) (x : Card) (h : k < t.length) :
    (t[k] :: t.set k x).Perm (x :: t) := by
  induction t generalizing k with
  | nil => simp at h
  | cons y s ih =>
    cases k with
    | zero => simpa using List.Perm.swap x y s
    | succ k =>
      have hk : k < s.length := by simpa using h
      simp only [List.getElem_cons_succ, List.set_cons_succ]
      exact (List.Perm.swap y _ _).trans (((ih k hk).cons y).trans (List.Perm.swap x y s))

lemma swapAt_perm (l : List Card) (i j : Nat) : (swapAt l i j).Perm l := by
  induction l generalizing i j with
  | nil => simp [swapAt]
  | cons y t ih =>
    cases i with
    | zero =>
      cases j with
      | zero => simp [swapAt]
      | succ k =>
        rcases hk : t[k]? with _ | b
        · simp [swapAt, hk]
        · obtain ⟨hk', hb⟩ := List.getElem?_eq_some.mp hk
          have hsw : swapAt (y :: t) 0 (k + 1) = b :: t.set k y := by
            simp [swapAt, hk]
          rw [hsw, ← hb]
          exact set_cons_perm t k y hk'
    | succ m =>
      cases j with
      | zero =>
        rcases hm : t[m]? with _ | a
        · simp [swapAt, hm]
        · obtain ⟨hm', ha⟩ := List.getElem?_eq_some.mp hm
          have hsw : swapAt (y :: t) (m + 1) 0 = a :: t.set m y := by
            simp [swapAt, hm]
          rw [hsw, ← ha]
          exact set_cons_perm t m y hm'
      | succ k =>
        rcases hm : t[m]? with _ | a
        · simp [swapAt, hm]
        · rcases hk : t[k]? with _ | b
          · simp [swapAt, hm, hk]
          · have hsw : swapAt (y :: t) (m + 1) (k + 1) = y :: swapAt t m k := by
              simp [swapAt, hm, hk]
            rw [hsw]
            exact (ih m k).cons y

lemma foldl_swapAt_perm (js : Nat → Nat) (idxs : List Nat) (d : List Card) :
    (idxs.foldl (fun d i => swapAt d i (js i)) d).Perm d := by
  induction idxs generalizing d with
  | nil => exact List.Perm.refl d
  | cons i rest ih =>
    exact (ih (swapAt d i (js i))).trans (swapAt_perm d i (js i))

lemma shuffleDeck_perm (deck : List Card) (js : Nat → Nat) :
    (shuffleDeck deck js).Perm deck :=
  foldl_swapAt_perm js (List.range deck.length) deck

lemma deal_partition (deck : List Card) (h : deck.length = 52) :
    deck.take 13 ++ ((deck.drop 13).take 13 ++
      ((deck.drop 26).take 13 ++ (deck.drop 39).take 13)) = deck := by
  have e1 : (deck.drop 13).drop 13 = deck.drop 26 := by
    rw [List.drop_drop]
  have e2 : (deck.drop 26).drop 13 = deck.drop 39 := by
    rw [List.drop_drop]
  have e3 : (deck.drop 39).take 13 = deck.drop 39 :=
    List.take_of_length_le (by simp [h])
  calc
    deck.take 13 ++ ((deck.drop 13).take 13 ++
        ((deck.drop 26).take 13 ++ (deck.drop 39).take 13))
        = deck.take 13 ++ ((deck.drop 13).take 13 ++
            ((deck.drop 26).take 13 ++ (deck.drop 26).drop 13)) := by rw [e2, e3]
    _ = deck.take 13 ++ ((deck.drop 13).take 13 ++ (deck.drop 13).drop 13) := by
          rw [List.take_append_drop, ← e1]
    _ = deck.take 13 ++ deck.drop 13 := by rw [List.take_append_drop]
    _ = deck := List.take_append_drop 13 deck

lemma unique_seat_of_partition {h0 h1 h2 h3 : List Card} {x : Card}
    (hnd : (h0 ++ (h1 ++ (h2 ++ h3))).Nodup)
    (hand : Fin 4 → List Card)
    (e0 : hand 0 = h0) (e1 : hand 1 = h1) (e2 : hand 2 = h2) (e3 : hand 3 = h3)
    (hx : x ∈ h0 ++ (h1 ++ (h2 ++ h3))) :
    ∃! seat : Fin 4, x ∈ hand seat := by
  obtain ⟨n0, rest0, disj0⟩ := List.nodup_append.mp hnd
  obtain ⟨n1, rest1, disj1⟩ := List.nodup_append.mp rest0
  obtain ⟨n2, n3, disj23⟩ := List.nodup_append.mp rest1
  have i0 : x ∈ hand 0 ↔ x ∈ h0 := by rw [e0]
  have i1 : x ∈ hand 1 ↔ x ∈ h1 := by rw [e1]
  have i2 : x ∈ hand 2 ↔ x ∈ h2 := by rw [e2]
  have i3 : x ∈ hand 3 ↔ x ∈ h3 := by rw [e3]
  have seat_cases : ∀ s : Fin 4, s = 0 ∨ s = 1 ∨ s = 2 ∨ s = 3 := by decide
  rcases List.mem_append.mp hx with m0 | m123
  · refine ⟨0, i0.mpr m0, fun s hs => ?_⟩
    rcases seat_cases s with rfl | rfl | rfl | rfl
    · rfl
    · exact (disj0 m0 (List.mem_append_left _ (i1.mp hs))).elim
    · exact (disj0 m0 (List.mem_append_right _ (List.mem_append_left _ (i2.mp hs)))).elim
    · exact (disj0 m0 (List.mem_append_right _ (List.mem_append_right _ (i3.mp hs)))).elim
  · rcases List.mem_append.mp m123 with m1 | m23
    · refine ⟨1, i1.mpr m1, fun s hs => ?_⟩
      rcases seat_cases s with rfl | rfl | rfl | rfl
      · exact (disj0 (i0.mp hs) (List.mem_append_left _ m1)).elim
      · rfl
      · exact (disj1 m1 (List.mem_append_left _ (i2.mp hs))).elim
      · exact (disj1 m1 (List.mem_append_right _ (i3.mp hs))).elim
    · rcases List.mem_append.mp m23 with m2 | m3
      · refine ⟨2, i2.mpr m2, fun s hs => ?_⟩
        rcases seat_cases s with rfl | rfl | rfl | rfl
        · exact (disj0 (i0.mp hs) (List.mem_append_right _ (List.mem_append_left _ m2))).elim
        · exact (disj1 (i1.mp hs) (List.mem_append_left _ m2)).elim
        · rfl
        · exact (disj23 m2 (i3.mp hs)).elim
      · refine ⟨3, i3.mpr m3, fun s hs => ?_⟩
        rcases seat_cases s with rfl | rfl | rfl | rfl
        · exact (disj0 (i0.mp hs) (List.mem_append_right _ (List.mem_append_right _ m3))).elim
        · exact (disj1 (i1.mp hs) (List.mem_append_right _ m3)).elim
        · exact (disj23 (i2.mp hs) m3).elim
        · rfl

/-- C10: for every in-range random source the shuffled deck is a permutation
of the fresh deck (52 distinct cards), so after dealing exactly one seat
holds the two of clubs, the start-player determination of `playGame` cannot
fail, and the seat holding the two of clubs is the initial trick leader.
(The second TypeScript error branch, `players.indexOf(startingPlayer) === -1`,
has no counterpart here: an element returned by `find` over the four distinct
player references always has an index.) -/
theorem playGame_start (F : Type) (js : Nat → Nat) (hjs : ∀ i, js i < 52)
    (simplified : Bool) :
    freshDeck.Nodup ∧ freshDeck.length = 52 ∧
    (shuffleDeck freshDeck js).Perm freshDeck ∧
    (∃! seat : Fin 4, (⟨suits_clubs, 2⟩ : Card) ∈
        (dealtPlayers (F := F) (shuffleDeck freshDeck js) seat).hand) ∧
    ∃ seat s0, startState F simplified js = some s0 ∧ s0.trickLeader = seat ∧
      (⟨suits_clubs, 2⟩ : Card) ∈ (s0.players seat).hand := by
  have hnodup : freshDeck.Nodup := by decide
  have hlen : freshDeck.length = 52 := by decide
  obtain ⟨deck, hdeck⟩ : ∃ d, d = shuffleDeck freshDeck js := ⟨_, rfl⟩
  rw [← hdeck]
  have hperm : deck.Perm freshDeck := by
    rw [hdeck]; exact shuffleDeck_perm freshDeck js
  have hdlen : deck.length = 52 := by rw [hperm.length_eq, hlen]
  have hdnd : deck.Nodup := hperm.nodup_iff.mpr hnodup
  have hmem : (⟨suits_clubs, 2⟩ : Card) ∈ deck := hperm.mem_iff.mpr (by decide)
  have hpart := deal_partition deck hdlen
  have hndp : (deck.take 13 ++ ((deck.drop 13).take 13 ++
      ((deck.drop 26).take 13 ++ (deck.drop 39).take 13))).Nodup := by
    rw [hpart]; exact hdnd
  have hmemp : (⟨suits_clubs, 2⟩ : Card) ∈ deck.take 13 ++ ((deck.drop 13).take 13 ++
      ((deck.drop 26).take 13 ++ (deck.drop 39).take 13)) := by
    rw [hpart]; exact hmem
  have huniq : ∃! seat : Fin 4,
      (⟨suits_clubs, 2⟩ : Card) ∈ (dealtPlayers (F := F) deck seat).hand := by
    exact unique_seat_of_partition hndp
      (fun seat => (dealtPlayers (F := F) deck seat).hand) rfl rfl rfl rfl hmemp
  obtain ⟨seat0, hseat0⟩ := huniq.exists
  have hpred : ∀ seat : Fin 4,
      (((dealtPlayers (F := F) deck seat).hand.find?
        (fun c => c.suit == suits_clubs && c.rank == 2)).isSome = true ↔
       (⟨suits_clubs, 2⟩ : Card) ∈ (dealtPlayers (F := F) deck seat).hand) := by
    intro seat
    rw [List.find?_isSome]
    constructor
    · rintro ⟨c, hc, hcp⟩
      obtain ⟨c1, c2⟩ := c
      simp only [Bool.and_eq_true, beq_iff_eq] at hcp
      obtain ⟨rfl, rfl⟩ := hcp
      exact hc
    · intro h
      exact ⟨⟨suits_clubs, 2⟩, h, by simp⟩
  have hmem4 : ∀ s : Fin 4, s ∈ ([0, 1, 2, 3] : List (Fin 4)) := by decide
  have hfindSome : (playerWithCardSeat (dealtPlayers (F := F) deck)
      suits_clubs 2).isSome = true := by
    rw [playerWithCardSeat, List.find?_isSome]
    exact ⟨seat0, hmem4 seat0, (hpred seat0).mpr hseat0⟩
  obtain ⟨seatF, hF⟩ := Option.isSome_iff_exists.mp hfindSome
  have hFfind : List.find?
      (fun seat => ((dealtPlayers (F := F) deck seat).hand.find?
        (fun c => c.suit == suits_clubs && c.rank == 2)).isSome)
      ([0, 1, 2, 3] : List (Fin 4)) = some seatF := hF
  have hpF := List.find?_some hFfind
  have hmemF : (⟨suits_clubs, 2⟩ : Card) ∈ (dealtPlayers (F := F) deck seatF).hand :=
    (hpred seatF).mp hpF
  have hsc : playerWithCardSeat (dealtPlayers (F := F) (shuffleDeck freshDeck js))
      suits_clubs 2 = some seatF := by
    rw [← hdeck]; exact hF
  have hstart : startState F simplified js =
      some { players := dealtPlayers (F := F) deck, trick := { suit := none, cards := [] },
             simplified := simplified, heartsBroken := false, trickLeader := seatF } := by
    rw [hdeck]
    unfold startState
    rw [hsc]
  exact ⟨hnodup, hlen, hperm, huniq, seatF, _, hstart, rfl, hmemF⟩

/-- Witness for C10: the constant-zero random source. -/
theorem playGame_start_witness :
    (shuffleDeck freshDeck (fun _ => 0)).Perm freshDeck ∧
    ∃ seat s0, startState Unit false (fun _ => 0) = some s0 ∧
      s0.trickLeader = seat ∧
      (⟨suits_clubs, 2⟩ : Card) ∈ (s0.players seat).hand := by
  obtain ⟨_, _, h3, _, h5⟩ :=
    playGame_start Unit (fun _ => 0) (fun i => by norm_num) false
  exact ⟨h3, h5⟩

/-! ## Game-loop lemmas (for the driver invariants) -/

lemma selectPlay_go_mem (l : List (ActionSummary F)) :
    ∀ (acc : Option (ActionSummary F)) (a : ActionSummary F),
      l.foldl
        (fun selection summary =>
          match selection with
          | none => some summary
          | some sel =>
            if sel.quality < summary.quality then some summary else selection)
        acc = some a →
      acc = some a ∨ a ∈ l := by
  induction l with
  | nil => exact fun acc a h => Or.inl h
  | cons x t ih =>
    intro acc a h
    simp only [List.foldl_cons] at h
    rcases acc with _ | sel
    · rcases ih (some x) a h with h1 | h1
      · simp only [Option.some.injEq] at h1
        exact Or.inr (by simp [h1])
      · exact Or.inr (List.mem_cons_of_mem x h1)
    · by_cases hq : sel.quality < x.quality
      · rcases ih (some x) a (by simpa [hq] using h) with h1 | h1
        · simp only [Option.some.injEq] at h1
          exact Or.inr (by simp [h1])
        · exact Or.inr (List.mem_cons_of_mem x h1)
      · rcases ih (some sel) a (by simpa [hq] using h) with h1 | h1
        · exact Or.inl h1
        · exact Or.inr (List.mem_cons_of_mem x h1)

lemma selectPlay_mem (l : List (ActionSummary F)) (a : ActionSummary F)
    (h : selectPlay l = some a) : a ∈ l := by
  rcases selectPlay_go_mem l none a h with h1 | h1
  · exact absurd h1 (by simp)
  · exact h1

lemma selectPlay_go_isSome (l : List (ActionSummary F)) :
    ∀ acc : ActionSummary F,
      ∃ a, l.foldl
        (fun selection summary =>
          match selection with
          | none => some summary
          | some sel =>
            if sel.quality < summary.quality then some summary else selection)
        (some acc) = some a := by
  induction l with
  | nil => exact fun acc => ⟨acc, rfl⟩
  | cons x t ih =>
    intro acc
    simp only [List.foldl_cons]
    by_cases hq : acc.quality < x.quality <;> simp only [hq, if_true, if_false]
    · exact ih x
    · simpa [hq] using ih acc

lemma selectPlay_ne_nil (l : List (ActionSummary F)) (h : l ≠ []) :
    ∃ a, selectPlay l = some a := by
  obtain ⟨x, t, rfl⟩ := List.exists_cons_of_ne_nil h
  unfold selectPlay
  simp only [List.foldl_cons]
  exact selectPlay_go_isSome t x

lemma validPlays_subset (trickSuit : Option Nat) (simplified heartsBroken : Bool)
    (hand : List Card) :
    ∀ c ∈ validPlays trickSuit simplified heartsBroken hand, c ∈ hand := by
  intro c hc
  unfold validPlays at hc
  rcases trickSuit with _ | s
  · by_cases h : (simplified || heartsBroken) = true
    · simpa [h] using hc
    · simp only [h, Bool.false_eq_true, if_false] at hc
      by_cases h2 : ((hand.filter (fun c => cardPoints c simplified == 0)).length == 0) = true
      · simpa [h2] using hc
      · simp only [h2, Bool.false_eq_true, if_false] at hc
        exact List.mem_of_mem_filter hc
  · by_cases h : (hand.foldl (fun acc c => acc || c.suit == s) false) = true
    · simp only [h, if_true] at hc
      exact List.mem_of_mem_filter hc
    · simpa [h] using hc

lemma validPlays_ne_nil (trickSuit : Option Nat) (simplified heartsBroken : Bool)
    (hand : List Card) (h : hand ≠ []) :
    validPlays trickSuit simplified heartsBroken hand ≠ [] := by
  unfold validPlays
  rcases trickSuit with _ | s
  · by_cases hb : (simplified || heartsBroken) = true
    · simpa [hb] using h
    · simp only [hb, Bool.false_eq_true, if_false]
      by_cases h2 : ((hand.filter (fun c => cardPoints c simplified == 0)).length == 0) = true
      · simpa [h2] using h
      · simp only [h2, Bool.false_eq_true, if_false]
        intro hnil
        rw [hnil] at h2
        simp at h2
  · by_cases hs : (hand.foldl (fun acc c => acc || c.suit == s) false) = true
    · simp only [hs, if_true]
      rw [foldl_or_eq_any, Bool.false_or, List.any_eq_true] at hs
      obtain ⟨c, hcm, hcs⟩ := hs
      intro hnil
      have hcf : c ∈ hand.filter (fun c => c.suit == s) :=
        List.mem_filter.mpr ⟨hcm, hcs⟩
      rw [hnil] at hcf
      simp at hcf
    · simpa [hs] using h

lemma playCard_effects (s : State F) (seat : Fin 4) (a : ActionSummary F) :
    ((playCard s seat a).players seat).hand =
      (s.players seat).hand.filter (fun c => c != a.action) ∧
    ((playCard s seat a).players seat).record =
      (s.players seat).record ++ [⟨a.action, a.quality, a.trace⟩] ∧
    (∀ seat2, seat2 ≠ seat → (playCard s seat a).players seat2 = s.players seat2) ∧
    (∀ seat2, ((playCard s seat a).players seat2).score = (s.players seat2).score) ∧
    (playCard s seat a).trick.cards = s.trick.cards ++ [a.action] ∧
    ((s.trick.suit = none → (playCard s seat a).trick.suit = some a.action.suit) ∧
     (∀ ts, s.trick.suit = some ts → (playCard s seat a).trick.suit = some ts)) ∧
    (playCard s seat a).trickLeader = s.trickLeader ∧
    (playCard s seat a).simplified = s.simplified := by
  refine ⟨?_, ?_, ?_, ?_, rfl, ⟨?_, ?_⟩, rfl, rfl⟩
  · simp [playCard]
  · rcases hts : s.trick.suit with _ | ts
    · simp [playCard, hts]
    · by_cases hne : ts ≠ a.action.suit <;> simp [playCard, hts, hne]
  · intro seat2 h2
    simp [playCard, h2]
  · intro seat2
    by_cases h2 : seat2 = seat
    · subst h2
      rcases hts : s.trick.suit with _ | ts
      · simp [playCard, hts]
      · by_cases hne : ts ≠ a.action.suit <;> simp [playCard, hts, hne]
    · simp [playCard, h2]
  · intro h
    simp [playCard, h]
  · intro ts h
    simp [playCard, h]

lemma indexOf?_of_mem (l : List Card) (c : Card) (h : c ∈ l) :
    ∃ n, l.indexOf? c = some n := by
  rcases hn : l.indexOf? c with _ | n
  · exact absurd (by simp) (List.indexOf?_eq_none_iff.mp hn c h)
  · exact ⟨n, rfl⟩

lemma trickPoints_eq_sum (t : Trick) (simplified : Bool) :
    trickPoints t simplified = (t.cards.map (fun c => cardPoints c simplified)).sum := by
  unfold trickPoints
  generalize t.cards = l
  have : ∀ (l : List Card) (n : Nat),
      l.foldl (fun total c => total + cardPoints c simplified) n =
        n + (l.map (fun c => cardPoints c simplified)).sum := by
    intro l
    induction l with
    | nil => simp
    | cons c t ih => intro n; simp [ih, Nat.add_assoc]
  simpa using this l 0

lemma sum_update_fin4 (f g : Fin 4 → Nat) (a : Fin 4) (h : ∀ x, x ≠ a → g x = f x) :
    (∑ x : Fin 4, g x) + f a = (∑ x : Fin 4, f x) + g a := by
  have hg := Finset.sum_erase_add Finset.univ g (Finset.mem_univ a)
  have hf := Finset.sum_erase_add Finset.univ f (Finset.mem_univ a)
  have he : ∑ x ∈ Finset.univ.erase a, g x = ∑ x ∈ Finset.univ.erase a, f x := by
    refine Finset.sum_congr rfl fun x hx => ?_
    exact h x (Finset.ne_of_mem_erase hx)
  omega

lemma playStep_isSome (policies : Fin 4 → Policy F) (hlegal : ChoosesOffered policies)
    (hprod : Productive policies) (s : State F) (i : Fin 4)
    (hhand : (s.players (s.trickLeader + i)).hand ≠ []) :
    ∃ a, selectPlay (policies (s.trickLeader + i) s (s.players (s.trickLeader + i))
        (validPlays s.trick.suit s.simplified s.heartsBroken
          (s.players (s.trickLeader + i)).hand)) = some a ∧
      playStep policies s i = some (playCard s (s.trickLeader + i) a) ∧
      a.action ∈ validPlays s.trick.suit s.simplified s.heartsBroken
        (s.players (s.trickLeader + i)).hand ∧
      a.action ∈ (s.players (s.trickLeader + i)).hand := by
  have hplays := validPlays_ne_nil s.trick.suit s.simplified s.heartsBroken
    (s.players (s.trickLeader + i)).hand hhand
  have hsumm := hprod (s.trickLeader + i) s (s.players (s.trickLeader + i)) _ hplays
  obtain ⟨a, ha⟩ := selectPlay_ne_nil _ hsumm
  have hmem := selectPlay_mem _ _ ha
  have hact := hlegal _ _ _ _ _ hmem
  have hin := validPlays_subset _ _ _ _ _ hact
  refine ⟨a, ha, ?_, hact, hin⟩
  unfold playStep
  rw [ha]

lemma midInv_step (policies : Fin 4 → Policy F) (hlegal : ChoosesOffered policies)
    (hprod : Productive policies) (hl recn : Nat) (hhl : hl ≠ 0) (j : Fin 4)
    (simplified : Bool) (total : Nat) (L : Fin 4) (s : State F)
    (hinv : MidInv hl recn j.val simplified total L s) :
    ∃ s', playStep policies s j = some s' ∧
      MidInv hl recn (j.val + 1) simplified total L s' := by
  obtain ⟨hL, hsimp, hlen, hnilsuit, hheadsuit, hdone, htodo, hnodup, hsum⟩ := hinv
  have hA : s.trickLeader + j = L + j := by rw [hL]
  have hhandlen : (s.players (L + j)).hand.length = hl := (htodo j (le_refl _)).1
  have hhand : (s.players (s.trickLeader + j)).hand ≠ [] := by
    rw [hA]
    intro hnil
    rw [hnil] at hhandlen
    exact hhl (by simpa using hhandlen.symm)
  obtain ⟨a, hsel, hstep, hact, hin⟩ := playStep_isSome policies hlegal hprod s j hhand
  obtain ⟨ehand, erec, eoth, escore, etrick, ⟨esuitn, esuits⟩, eleader, esimp⟩ :=
    playCard_effects s (s.trickLeader + j) a
  rw [hA] at hstep ehand erec eoth escore hin etrick esuitn esuits eleader esimp
  refine ⟨playCard s (L + j) a, hstep, ?_, ?_, ?_, ?_, ?_, ?_, ?_, ?_, ?_⟩
  · rw [eleader, hL]
  · rw [esimp, hsimp]
  · rw [etrick]
    simp [hlen]
  · intro hc
    rw [etrick] at hc
    simp at hc
  · intro c0 rest hc
    rw [etrick] at hc
    rcases hcards : s.trick.cards with _ | ⟨d0, drest⟩
    · rw [hcards] at hc
      simp only [List.nil_append, List.cons.injEq] at hc
      rw [esuitn (hnilsuit hcards), hc.1]
    · rw [hcards] at hc
      simp only [List.cons_append, List.cons.injEq] at hc
      rw [esuits d0.suit (hheadsuit d0 drest hcards), hc.1]
  · intro m hm
    by_cases hmj : m = j
    · subst hmj
      constructor
      · rw [ehand, ← (hnodup (L + m)).erase_eq_filter]
        have := List.length_erase_of_mem hin
        omega
      · rw [erec]
        simp [(htodo m (le_refl _)).2]
    · have hne : L + m ≠ L + j := fun hcon => hmj (add_left_cancel hcon)
      have hmlt : m.val < j.val := by
        rcases Nat.lt_or_ge m.val j.val with h | h
        · exact h
        · exfalso
          rcases Nat.lt_or_ge m.val (j.val + 1) with h2 | h2
          · exact hmj (Fin.ext (by omega))
          · omega
      rw [eoth (L + m) hne]
      exact hdone m hmlt
  · intro m hm
    have hmj : m ≠ j := by
      intro hcon
      rw [hcon] at hm
      omega
    have hne : L + m ≠ L + j := fun hcon => hmj (add_left_cancel hcon)
    rw [eoth (L + m) hne]
    exact htodo m (by omega)
  · intro seat
    by_cases hseq : seat = L + j
    · subst hseq
      rw [ehand, ← (hnodup (L + j)).erase_eq_filter]
      exact (hnodup (L + j)).erase a.action
    · rw [eoth seat hseq]
      exact hnodup seat
  · have escoresum : scoreSum (playCard s (L + j) a) = scoreSum s :=
      Finset.sum_congr rfl fun seat _ => escore seat
    have etp : trickPoints (playCard s (L + j) a).trick
        (playCard s (L + j) a).simplified =
        trickPoints s.trick s.simplified + cardPoints a.action s.simplified := by
      rw [trickPoints_eq_sum, trickPoints_eq_sum, esimp, etrick]
      simp
    have hperm := List.perm_cons_erase hin
    have ehp : ((s.players (L + j)).hand.map (fun c => cardPoints c s.simplified)).sum =
        cardPoints a.action s.simplified +
          (((s.players (L + j)).hand.erase a.action).map
            (fun c => cardPoints c s.simplified)).sum := by
      rw [(hperm.map (fun c => cardPoints c s.simplified)).sum_eq]
      simp
    have ehand2 : ((playCard s (L + j) a).players (L + j)).hand =
        (s.players (L + j)).hand.erase a.action := by
      rw [ehand, ← (hnodup (L + j)).erase_eq_filter]
    have hupd : (∑ seat : Fin 4, (((playCard s (L + j) a).players seat).hand.map
          (fun c => cardPoints c s.simplified)).sum) +
        ((s.players (L + j)).hand.map (fun c => cardPoints c s.simplified)).sum =
        (∑ seat : Fin 4, ((s.players seat).hand.map
          (fun c => cardPoints c s.simplified)).sum) +
        (((playCard s (L + j) a).players (L + j)).hand.map
          (fun c => cardPoints c s.simplified)).sum :=
      sum_update_fin4
        (fun seat => ((s.players seat).hand.map
          (fun c => cardPoints c s.simplified)).sum)
        (fun seat => (((playCard s (L + j) a).players seat).hand.map
          (fun c => cardPoints c s.simplified)).sum)
        (L + j)
        (fun seat hseq => by simp only [eoth seat hseq])
    have ehpsum : handsPoints (playCard s (L + j) a) +
        cardPoints a.action s.simplified = handsPoints s := by
      unfold handsPoints
      rw [esimp]
      rw [ehand2] at hupd
      rw [ehp] at hupd
      omega
    rw [escoresum, etp]
    omega

lemma resolveTrick_eq (s : State F) (w : Fin 4) (hw : winningSeat s = some w) :
    resolveTrick s = some (resolvedState s w) := by
  unfold resolveTrick
  rw [hw]
  rfl

lemma resolvedState_hand (s : State F) (w seat : Fin 4) :
    ((resolvedState s w).players seat).hand = (s.players seat).hand := by
  unfold resolvedState
  by_cases hcond : trickPoints s.trick s.simplified ≠ 0 ∧ seat = w <;>
    simp [hcond, Player.assignReward]

lemma resolvedState_record (s : State F) (w seat : Fin 4) :
    ((resolvedState s w).players seat).record = (s.players seat).record := by
  unfold resolvedState
  by_cases hcond : trickPoints s.trick s.simplified ≠ 0 ∧ seat = w <;>
    simp [hcond, Player.assignReward]

lemma resolvedState_score (s : State F) (w seat : Fin 4) :
    ((resolvedState s w).players seat).score = (s.players seat).score +
      (if trickPoints s.trick s.simplified ≠ 0 ∧ seat = w
       then trickPoints s.trick s.simplified else 0) := by
  unfold resolvedState
  by_cases hcond : trickPoints s.trick s.simplified ≠ 0 ∧ seat = w <;>
    simp [hcond, Player.assignReward]

lemma resolvedState_scoreSum (s : State F) (w : Fin 4) :
    scoreSum (resolvedState s w) = scoreSum s + trickPoints s.trick s.simplified := by
  by_cases hp : trickPoints s.trick s.simplified = 0
  · have he : ∀ seat, ((resolvedState s w).players seat).score =
        (s.players seat).score := fun seat => by
      rw [resolvedState_score]; simp [hp]
    have hsum2 : (∑ seat : Fin 4, ((resolvedState s w).players seat).score) =
        ∑ seat : Fin 4, (s.players seat).score :=
      Finset.sum_congr rfl fun seat _ => he seat
    unfold scoreSum
    omega
  · have hupd : (∑ seat : Fin 4, ((resolvedState s w).players seat).score) +
        (s.players w).score =
        (∑ seat : Fin 4, (s.players seat).score) +
        ((resolvedState s w).players w).score :=
      sum_update_fin4
        (fun seat => (s.players seat).score)
        (fun seat => ((resolvedState s w).players seat).score)
        w
        (fun seat hseq => by
          simp only [resolvedState_score]
          simp [hseq])
    have hw : ((resolvedState s w).players w).score =
        (s.players w).score + trickPoints s.trick s.simplified := by
      rw [resolvedState_score]
      simp [hp]
    unfold scoreSum
    omega

lemma resolvedState_handsPoints (s : State F) (w : Fin 4) :
    handsPoints (resolvedState s w) = handsPoints s := by
  unfold handsPoints
  refine Finset.sum_congr rfl fun seat _ => ?_
  rw [resolvedState_hand]
  rfl

lemma midInv_resolve (hl recn : Nat) (simplified : Bool) (total : Nat) (L : Fin 4)
    (s : State F) (hinv : MidInv hl recn 4 simplified total L s) :
    ∃ s', resolveTrick s = some s' ∧
      s'.trick = { suit := none, cards := [] } ∧
      s'.simplified = simplified ∧
      (∀ seat, (s'.players seat).hand.length + 1 = hl) ∧
      (∀ seat, (s'.players seat).hand.Nodup) ∧
      (∀ seat, (s'.players seat).record.length = recn + 1) ∧
      scoreSum s' + handsPoints s' = total := by
  obtain ⟨hL, hsimp, hlen, hnilsuit, hheadsuit, hdone, htodo, hnodup, hsum⟩ := hinv
  obtain ⟨c0, rest, hcards⟩ : ∃ c0 rest, s.trick.cards = c0 :: rest := by
    rcases hc : s.trick.cards with _ | ⟨c0, rest⟩
    · rw [hc] at hlen; simp at hlen
    · exact ⟨c0, rest, rfl⟩
  have hsuit := hheadsuit c0 rest hcards
  obtain ⟨w, hw, hwmem, hws, hwmax⟩ := winStep_exists_of_match c0.suit s.trick.cards
    ⟨c0, by rw [hcards]; exact List.mem_cons_self c0 rest, rfl⟩
  have htw : trickWinner s.trick = some w := by
    rw [trickWinner_eq_foldl, hsuit]
    exact hw
  obtain ⟨idx, hidx⟩ := indexOf?_of_mem s.trick.cards w hwmem
  have hwin : winningSeat s =
      some ⟨(idx + s.trickLeader.val) % 4, Nat.mod_lt _ (by omega)⟩ := by
    have h1 : winningSeat s =
        (match s.trick.cards.indexOf? w with
         | none => none
         | some cardIndex =>
           some ⟨(cardIndex + s.trickLeader.val) % 4, Nat.mod_lt _ (by omega)⟩) := by
      unfold winningSeat
      rw [htw]
    rw [h1, hidx]
  have hcover : ∀ seat : Fin 4, ∃ m : Fin 4, seat = L + m := fun seat =>
    ⟨seat - L, by rw [add_comm, sub_add_cancel]⟩
  refine ⟨_, resolveTrick_eq s _ hwin, rfl, hsimp, ?_, ?_, ?_, ?_⟩
  · intro seat
    rw [resolvedState_hand]
    obtain ⟨m, rfl⟩ := hcover seat
    exact (hdone m m.isLt).1
  · intro seat
    rw [resolvedState_hand]
    exact hnodup seat
  · intro seat
    rw [resolvedState_record]
    obtain ⟨m, rfl⟩ := hcover seat
    exact (hdone m m.isLt).2
  · rw [resolvedState_scoreSum, resolvedState_handsPoints]
    omega

lemma option_bind_some {α β : Type} (a : α) (f : α → Option β) :
    (Option.some a).bind f = f a := rfl

lemma option_seq_some {α β : Type} (a : α) (f : α → Option β) :
    (some a >>= f) = f a := rfl

lemma playRound_spec (policies : Fin 4 → Policy F) (hlegal : ChoosesOffered policies)
    (hprod : Productive policies) (hl recn : Nat) (hhl : hl ≠ 0)
    (simplified : Bool) (total : Nat) (s : State F)
    (h1 : s.trick = { suit := none, cards := [] })
    (h2 : s.simplified = simplified)
    (h3 : ∀ seat, (s.players seat).hand.length = hl)
    (h4 : ∀ seat, (s.players seat).hand.Nodup)
    (h5 : ∀ seat, (s.players seat).record.length = recn)
    (h6 : scoreSum s + handsPoints s = total) :
    ∃ s', playRound policies s = some s' ∧
      s'.trick = { suit := none, cards := [] } ∧
      s'.simplified = simplified ∧
      (∀ seat, (s'.players seat).hand.length + 1 = hl) ∧
      (∀ seat, (s'.players seat).hand.Nodup) ∧
      (∀ seat, (s'.players seat).record.length = recn + 1) ∧
      scoreSum s' + handsPoints s' = total := by
  have hinv0 : MidInv hl recn 0 simplified total s.trickLeader s := by
    refine ⟨rfl, h2, by simp [h1], fun _ => by simp [h1], ?_, ?_, ?_, h4, ?_⟩
    · intro c0 rest hc
      rw [h1] at hc
      simp at hc
    · intro m hm
      omega
    · intro m _
      exact ⟨h3 _, h5 _⟩
    · rw [h1]
      simpa [trickPoints] using h6
  obtain ⟨s1, hs1, hinv1⟩ := midInv_step policies hlegal hprod hl recn hhl 0
    simplified total s.trickLeader s hinv0
  obtain ⟨s2, hs2, hinv2⟩ := midInv_step policies hlegal hprod hl recn hhl 1
    simplified total s.trickLeader s1 hinv1
  obtain ⟨s3, hs3, hinv3⟩ := midInv_step policies hlegal hprod hl recn hhl 2
    simplified total s.trickLeader s2 hinv2
  obtain ⟨s4, hs4, hinv4⟩ := midInv_step policies hlegal hprod hl recn hhl 3
    simplified total s.trickLeader s3 hinv3
  obtain ⟨s5, hs5, g1, g2, g3, g4, g5, g6⟩ :=
    midInv_resolve hl recn simplified total s.trickLeader s4 hinv4
  refine ⟨s5, ?_, g1, g2, g3, g4, g5, g6⟩
  simp only [playRound, hs1, option_seq_some, hs2, hs3, hs4, hs5]

lemma playRound_iter (policies : Fin 4 → Policy F) (hlegal : ChoosesOffered policies)
    (hprod : Productive policies) (simplified : Bool) (total : Nat) :
    ∀ (l : List Nat) (hl recn : Nat) (s : State F),
      l.length ≤ hl →
      s.trick = { suit := none, cards := [] } →
      s.simplified = simplified →
      (∀ seat, (s.players seat).hand.length = hl) →
      (∀ seat, (s.players seat).hand.Nodup) →
      (∀ seat, (s.players seat).record.length = recn) →
      scoreSum s + handsPoints s = total →
      ∃ s', l.foldlM (fun st _ => playRound policies st) s = some s' ∧
        s'.trick = { suit := none, cards := [] } ∧
        s'.simplified = simplified ∧
        (∀ seat, (s'.players seat).hand.length + l.length = hl) ∧
        (∀ seat, (s'.players seat).hand.Nodup) ∧
        (∀ seat, (s'.players seat).record.length = recn + l.length) ∧
        scoreSum s' + handsPoints s' = total := by
  intro l
  induction l with
  | nil =>
    intro hl recn s _ h1 h2 h3 h4 h5 h6
    exact ⟨s, rfl, h1, h2, fun seat => by simpa using h3 seat, h4,
      fun seat => by simpa using h5 seat, h6⟩
  | cons x t ih =>
    intro hl recn s hlen h1 h2 h3 h4 h5 h6
    have hhl : hl ≠ 0 := by
      simp only [List.length_cons] at hlen
      omega
    obtain ⟨s1, hs1, g1, g2, g3, g4, g5, g6⟩ :=
      playRound_spec policies hlegal hprod hl recn hhl simplified total s
        h1 h2 h3 h4 h5 h6
    obtain ⟨s', hs', k1, k2, k3, k4, k5, k6⟩ := ih (hl - 1) (recn + 1) s1
      (by simp only [List.length_cons] at hlen; omega)
      g1 g2 (fun seat => by have := g3 seat; omega) g4 g5 g6
    refine ⟨s', ?_,
      k1, k2,
      fun seat => by
        have := k3 seat
        simp only [List.length_cons]
        omega,
      k4,
      fun seat => by
        have := k5 seat
        simp only [List.length_cons]
        omega,
      k6⟩
    simp only [List.foldlM_cons, hs1, option_seq_some, hs']

lemma startState_spec (F : Type) (js : Nat → Nat) (simplified : Bool) :
    ∃ s0, startState F simplified js = some s0 ∧
      s0.trick = { suit := none, cards := [] } ∧
      s0.simplified = simplified ∧
      s0.heartsBroken = false ∧
      (∀ seat, (s0.players seat).hand.length = 13) ∧
      (∀ seat, (s0.players seat).hand.Nodup) ∧
      (∀ seat, (s0.players seat).record.length = 0) ∧
      scoreSum s0 + handsPoints s0 = totalPoints simplified := by
  obtain ⟨deck, hdeck⟩ : ∃ d, d = shuffleDeck freshDeck js := ⟨_, rfl⟩
  have hperm : deck.Perm freshDeck := by
    rw [hdeck]; exact shuffleDeck_perm freshDeck js
  have hdlen : deck.length = 52 := by rw [hperm.length_eq]; decide
  have hdnd : deck.Nodup := hperm.nodup_iff.mpr (by decide)
  have hmem : (⟨suits_clubs, 2⟩ : Card) ∈ deck := hperm.mem_iff.mpr (by decide)
  have hpart := deal_partition deck hdlen
  have hmemp : (⟨suits_clubs, 2⟩ : Card) ∈ deck.take 13 ++ ((deck.drop 13).take 13 ++
      ((deck.drop 26).take 13 ++ (deck.drop 39).take 13)) := by
    rw [hpart]; exact hmem
  have hseat : ∃ seat : Fin 4,
      (⟨suits_clubs, 2⟩ : Card) ∈ (dealtPlayers (F := F) deck seat).hand := by
    rcases List.mem_append.mp hmemp with m0 | m123
    · exact ⟨0, m0⟩
    · rcases List.mem_append.mp m123 with m1 | m23
      · exact ⟨1, m1⟩
      · rcases List.mem_append.mp m23 with m2 | m3
        · exact ⟨2, m2⟩
        · exact ⟨3, m3⟩
  obtain ⟨seat0, hseat0⟩ := hseat
  have hpred0 : (((dealtPlayers (F := F) deck seat0).hand.find?
      (fun c => c.suit == suits_clubs && c.rank == 2)).isSome = true) := by
    rw [List.find?_isSome]
    exact ⟨⟨suits_clubs, 2⟩, hseat0, by simp⟩
  have hmem4 : ∀ s : Fin 4, s ∈ ([0, 1, 2, 3] : List (Fin 4)) := by decide
  have hfindSome : (playerWithCardSeat (dealtPlayers (F := F) deck)
      suits_clubs 2).isSome = true := by
    rw [playerWithCardSeat, List.find?_isSome]
    exact ⟨seat0, hmem4 seat0, hpred0⟩
  obtain ⟨seatF, hF⟩ := Option.isSome_iff_exists.mp hfindSome
  have hsc : playerWithCardSeat (dealtPlayers (F := F) (shuffleDeck freshDeck js))
      suits_clubs 2 = some seatF := by
    rw [← hdeck]; exact hF
  have hstart : startState F simplified js =
      some { players := dealtPlayers (F := F) deck,
             trick := { suit := none, cards := [] },
             simplified := simplified, heartsBroken := false,
             trickLeader := seatF } := by
    rw [hdeck]
    unfold startState
    rw [hsc]
  refine ⟨_, hstart, rfl, rfl, rfl, ?_, ?_, ?_, ?_⟩
  · intro seat
    show ((deck.drop (13 * seat.val)).take 13).length = 13
    rw [List.length_take, List.length_drop, hdlen]
    fin_cases seat <;> norm_num
  · intro seat
    have hsub : List.Sublist ((deck.drop (13 * seat.val)).take 13) deck :=
      (List.take_sublist _ _).trans (List.drop_sublist _ _)
    exact hdnd.sublist hsub
  · intro seat
    rfl
  · have hscore : scoreSum ({ players := dealtPlayers (F := F) deck,
                              trick := { suit := none, cards := [] },
                              simplified := simplified, heartsBroken := false,
                              trickLeader := seatF } : State F) = 0 := by
      simp [scoreSum, dealtPlayers, createPlayer]
    have e : ((deck.take 13 ++ ((deck.drop 13).take 13 ++
        ((deck.drop 26).take 13 ++ (deck.drop 39).take 13))).map
          (fun c => cardPoints c simplified)).sum =
        (deck.map (fun c => cardPoints c simplified)).sum := by
      rw [hpart]
    simp only [List.map_append, List.sum_append] at e
    have e2 : (deck.map (fun c => cardPoints c simplified)).sum =
        (freshDeck.map (fun c => cardPoints c simplified)).sum :=
      (hperm.map (fun c => cardPoints c simplified)).sum_eq
    have hhp : handsPoints ({ players := dealtPlayers (F := F) deck,
                              trick := { suit := none, cards := [] },
                              simplified := simplified, heartsBroken := false,
                              trickLeader := seatF } : State F) =
        totalPoints simplified := by
      unfold handsPoints totalPoints
      rw [Fin.sum_univ_four]
      show ((deck.take 13).map (fun c => cardPoints c simplified)).sum +
          (((deck.drop 13).take 13).map (fun c => cardPoints c simplified)).sum +
          (((deck.drop 26).take 13).map (fun c => cardPoints c simplified)).sum +
          (((deck.drop 39).take 13).map (fun c => cardPoints c simplified)).sum =
          (freshDeck.map (fun c => cardPoints c simplified)).sum
      omega
    rw [hscore, hhp]
    omega

lemma option_seq_none {α β : Type} (f : α → Option β) :
    ((none : Option α) >>= f) = none := rfl

lemma playStep_inv (policies : Fin 4 → Policy F) (hlegal : ChoosesOffered policies)
    (s s' : State F) (i : Fin 4) (h : playStep policies s i = some s') :
    ∃ a, LegalStep policies s i a s' := by
  unfold playStep at h
  split at h
  next play heq =>
    simp only [Option.some.injEq] at h
    have hmem := selectPlay_mem _ _ heq
    have hact := hlegal _ _ _ _ _ hmem
    refine ⟨play, heq, hmem, hact, h.symm, ?_⟩
    rw [← h]
    exact (playCard_effects s (s.trickLeader + i) play).2.2.2.2.1
  next heq => simp at h

lemma allZeroPolicy_legal : ChoosesOffered allZeroPolicy := by
  intro seat s p plays a ha
  unfold allZeroPolicy at ha
  obtain ⟨c, hc, rfl⟩ := List.mem_map.mp ha
  exact hc

lemma allZeroPolicy_productive : Productive allZeroPolicy := by
  intro seat s p plays hne
  unfold allZeroPolicy
  simpa using hne

/-! ## Claim C8 -/

/-- C8: whenever a round of play succeeds, each of its four card plays is a
`LegalStep`: the acting seat's policy is queried with exactly the legal
subset computed by `validPlays` for its hand and the current state, the
selected candidate comes from the policy's answer, and the card appended to
the trick is one of those legal plays — so an illegal play cannot occur,
whatever candidate the policy ranks highest. `playGame` drives every round
through `playRound`, so this covers every policy query of a game. -/
theorem playRound_legal (policies : Fin 4 → Policy F)
    (hlegal : ChoosesOffered policies) (s s' : State F)
    (h : playRound policies s = some s') :
    ∃ a0 s1 a1 s2 a2 s3 a3 s4,
      LegalStep policies s 0 a0 s1 ∧ LegalStep policies s1 1 a1 s2 ∧
      LegalStep policies s2 2 a2 s3 ∧ LegalStep policies s3 3 a3 s4 ∧
      resolveTrick s4 = some s' := by
  unfold playRound at h
  rcases hp1 : playStep policies s 0 with _ | s1
  · simp [hp1, option_seq_none] at h
  · simp only [hp1, option_seq_some] at h
    rcases hp2 : playStep policies s1 1 with _ | s2
    · simp [hp2, option_seq_none] at h
    · simp only [hp2, option_seq_some] at h
      rcases hp3 : playStep policies s2 2 with _ | s3
      · simp [hp3, option_seq_none] at h
      · simp only [hp3, option_seq_some] at h
        rcases hp4 : playStep policies s3 3 with _ | s4
        · simp [hp4, option_seq_none] at h
        · simp only [hp4, option_seq_some] at h
          obtain ⟨a0, hL0⟩ := playStep_inv policies hlegal s s1 0 hp1
          obtain ⟨a1, hL1⟩ := playStep_inv policies hlegal s1 s2 1 hp2
          obtain ⟨a2, hL2⟩ := playStep_inv policies hlegal s2 s3 2 hp3
          obtain ⟨a3, hL3⟩ := playStep_inv policies hlegal s3 s4 3 hp4
          exact ⟨a0, s1, a1, s2, a2, s3, a3, s4, hL0, hL1, hL2, hL3, h⟩

/-- Witness for C8: a concrete one-card-per-seat round driven by the
quality-zero policy. -/
theorem playRound_legal_witness :
    ∃ s', playRound allZeroPolicy roundDemoState = some s' ∧
      ∃ a0 s1 a1 s2 a2 s3 a3 s4,
        LegalStep allZeroPolicy roundDemoState 0 a0 s1 ∧
        LegalStep allZeroPolicy s1 1 a1 s2 ∧
        LegalStep allZeroPolicy s2 2 a2 s3 ∧
        LegalStep allZeroPolicy s3 3 a3 s4 ∧
        resolveTrick s4 = some s' := by
  obtain ⟨s', hs'⟩ : ∃ s', playRound allZeroPolicy roundDemoState = some s' :=
    ⟨_, rfl⟩
  exact ⟨s', hs',
    playRound_legal allZeroPolicy allZeroPolicy_legal roundDemoState s' hs'⟩

/-! ## Claim C5 -/

/-- C5: for every in-range random source and every quadruple of policies that
choose among the offered legal plays (and answer nonempty offers), `playGame`
completes: all 13 rounds of 4 plays run (each seat records exactly 13
actions, 52 in total), every hand ends empty, and in standard mode the four
cumulative scores sum to exactly 26. -/
theorem playGame_totals (F : Type) (policies : Fin 4 → Policy F)
    (hlegal : ChoosesOffered policies) (hprod : Productive policies)
    (simplified : Bool) (js : Nat → Nat) (hjs : ∀ i, js i < 52) :
    ∃ sEnd, playGame policies simplified js = some sEnd ∧
      (∀ seat, (sEnd.players seat).hand = []) ∧
      (∀ seat, (sEnd.players seat).record.length = 13) ∧
      (∑ seat : Fin 4, (sEnd.players seat).record.length) = 52 ∧
      (simplified = false → scoreSum sEnd = 26) := by
  obtain ⟨s0, hs0, i1, i2, _, i4, i5, i6, i7⟩ := startState_spec F js simplified
  obtain ⟨sEnd, hrun, f1, f2, f3, f4, f5, f6⟩ := playRound_iter policies hlegal hprod
    simplified (totalPoints simplified) (List.range 13) 13 0 s0 (by simp)
    i1 i2 i4 i5 i6 i7
  have hrec : ∀ seat, (sEnd.players seat).record.length = 13 := by
    intro seat
    have := f5 seat
    simpa using this
  have hempty : ∀ seat, (sEnd.players seat).hand = [] := by
    intro seat
    have := f3 seat
    rw [List.length_range] at this
    have hz : (sEnd.players seat).hand.length = 0 := by omega
    exact List.length_eq_zero.mp hz
  refine ⟨sEnd, ?_, hempty, hrec, ?_, ?_⟩
  · simp only [playGame, hs0, option_seq_some, hrun]
  · rw [Fin.sum_univ_four, hrec 0, hrec 1, hrec 2, hrec 3]
  · intro hsimp
    subst hsimp
    have hhp : handsPoints sEnd = 0 := by
      unfold handsPoints
      refine Finset.sum_eq_zero fun seat _ => ?_
      rw [hempty seat]
      rfl
    have ht : totalPoints false = 26 := by decide
    omega

/-- Witness for C5: the quality-zero policy and the constant-zero random
source. -/
theorem playGame_totals_witness :
    ∃ sEnd, playGame allZeroPolicy false (fun _ => 0) = some sEnd ∧
      (∀ seat, (sEnd.players seat).hand = []) ∧
      (∑ seat : Fin 4, (sEnd.players seat).record.length) = 52 ∧
      scoreSum sEnd = 26 := by
  obtain ⟨sEnd, h1, h2, _, h4, h5⟩ := playGame_totals Unit allZeroPolicy
    allZeroPolicy_legal allZeroPolicy_productive false (fun _ => 0)
    (fun i => by norm_num)
  exact ⟨sEnd, h1, h2, h4, h5 rfl⟩

end Hearts
